import Mathlib

/-!
Shallow embedding of the core of gftools' font-fixing module
(Lib/gftools/fix.py): style-name tokenization, name-table field
derivation, weight-class fixing, vertical-metrics harmonization, STAT
table synthesis and the family-fix orchestration, together with
theorems settling the specification claims about them.

Numeric axis values (Python ints and floats that the code only ever
compares for equality or with a linear order) are modelled as integers;
every value the code compares in the fragments below is integral.
Python dicts are modelled as association lists with dict-faithful
lookup helpers; Python sets are modelled as duplicate-free lists built
in first-insertion order, which is sound because the code only ever
uses set membership.
-/

namespace GFT

/-- Python str.split() with no argument, as used on style names
throughout fix.py: split on runs of whitespace, dropping empty tokens.
Implemented on the character list so it reduces in the kernel. The
accumulator holds the current token reversed. -/
def splitWsAux : List Char → List Char → List String
  | [], acc => if acc.isEmpty then [] else [String.mk acc.reverse]
  | c :: cs, acc =>
    if c.isWhitespace then
      (if acc.isEmpty then [] else [String.mk acc.reverse]) ++ splitWsAux cs []
    else
      splitWsAux cs (c :: acc)

/-- Python stylename.split(). -/
def splitWs (s : String) : List String := splitWsAux s.data []

/-- Python str.strip(): remove leading and trailing whitespace. -/
def strip (s : String) : String :=
  String.mk (((s.data.dropWhile Char.isWhitespace).reverse.dropWhile Char.isWhitespace).reverse)

/-- Python " ".join(tokens). -/
def joinSp (tokens : List String) : String := String.intercalate " " tokens

/-- Modelled from the spec: the process-wide weight vocabulary
WEIGHT_NAMES. fix.py (lines 44-48) builds it from _KNOWN_WEIGHTS, a
constant of gftools.util.google_fonts which is outside this
repository's sources: the empty key is removed and Hairline = 1,
ExtraBlack = 1000 are added. The spec describes the result as the fixed
bidirectional weight-name/value mapping (section 3, WeightVocabulary)
over the standard Google Fonts weight names. -/
def WEIGHT_NAMES : List (String × Nat) :=
  [("Thin", 100), ("ExtraLight", 200), ("Light", 300), ("Regular", 400),
   ("Medium", 500), ("SemiBold", 600), ("Bold", 700), ("ExtraBold", 800),
   ("Black", 900), ("Hairline", 1), ("ExtraBlack", 1000)]

/-- Python list(WEIGHT_NAMES): the weight vocabulary names. -/
def weightNameKeys : List String := WEIGHT_NAMES.map (fun p => p.1)

/-- Name-table fields written by update_nametable (fix.py lines
385-402): nameIDs 1 and 2 always, nameIDs 16 and 17 only for non-RIBBI
styles. -/
structure NameIds where
  n1 : String
  n2 : String
  n16 : Option String
  n17 : Option String
deriving Repr, DecidableEq

/-- RIBBI style names (fix.py line 385). -/
def ribbiStyles : List String := ["Regular", "Bold", "Italic", "Bold Italic"]

/-- Embeds the nameID derivation of update_nametable (fix.py lines
385-402): the records written for nameIDs 1, 2, 16 and 17 as a function
of the incoming family name and style name. The nameID 3/4/6 records
and the record-rewriting side effects of the surrounding function do
not feed back into these four fields (they are overwritten last, lines
426-432) and are not modelled. -/
def update_nametable_ids (family_name style_name : String) : NameIds :=
  if style_name ∈ ribbiStyles then
    { n1 := family_name, n2 := style_name, n16 := none, n17 := none }
  else
    let tokens := splitWs style_name
    let family_name_suffix := joinSp (tokens.filter (fun t => t ∉ (["Italic"] : List String)))
    let n1 := strip (family_name ++ " " ++ family_name_suffix)
    let n2 := if "Italic" ∉ tokens then "Regular" else "Italic"
    let typo_family_suffix := joinSp (tokens.filter (fun t => t ∉ weightNameKeys ++ ["Italic"]))
    let n16 := strip (family_name ++ " " ++ typo_family_suffix)
    let typo_style := joinSp (tokens.filter (fun t => t ∈ weightNameKeys ++ ["Italic"]))
    { n1 := n1, n2 := n2, n16 := some n16, n17 := some typo_style }

/-- Stable insertion into a list sorted by descending name length: the
new pair goes before the first entry whose name is not longer,
preserving the relative order of equal lengths exactly as Python's
stable sorted(key=len, reverse=True) does. -/
def insertLenDesc (x : String × Nat) : List (String × Nat) → List (String × Nat)
  | [] => [x]
  | y :: ys => if y.1.length ≤ x.1.length then x :: y :: ys else y :: insertLenDesc x ys

/-- Stable insertion sort by descending name length (a structurally
recursive equivalent of Python sorted(key=len, reverse=True), which is
also a stable sort). -/
def sortLenDesc : List (String × Nat) → List (String × Nat)
  | [] => []
  | x :: xs => insertLenDesc x (sortLenDesc xs)

/-- Embeds fix_weight_class (fix.py lines 158-181) as a function of the
font's style name: returns the new usWeightClass, or the fatal
ValueError (modelled as an error string; the source message
interpolates the style name). The weight names are scanned longest
first (Python sorted(key=len, reverse=True)). -/
def fix_weight_class (stylename : String) : Except String Nat :=
  let tokens := splitWs stylename
  match (sortLenDesc WEIGHT_NAMES).find? (fun p => decide (p.1 ∈ tokens)) with
  | some p => .ok p.2
  | none =>
    if "Italic" ∈ tokens then .ok 400
    else .error ("Cannot determine usWeightClass because font style, " ++ stylename ++
      " does not have a weight token which is in our known weights")

/-- Fields of a font read or written by fix_vertical_metrics: the eight
vertical-metrics fields, OS/2 fsSelection, the head table's yMin and
yMax, and the style name (as returned by font_stylename). -/
structure MFont where
  usWinAscent : Int
  usWinDescent : Int
  sTypoAscender : Int
  sTypoDescender : Int
  sTypoLineGap : Int
  hheaAscent : Int
  hheaDescent : Int
  hheaLineGap : Int
  fsSelection : Nat
  yMin : Int
  yMax : Int
  styleName : String
deriving Repr, DecidableEq

/-- typo_metrics_enabled (fix.py lines 567-568). -/
def typo_metrics_enabled (f : MFont) : Bool := f.fsSelection &&& (1 <<< 7) ≠ 0

/-- copy_vertical_metrics (fix.py lines 546-558). -/
def copy_vertical_metrics (src dst : MFont) : MFont :=
  { dst with
    usWinAscent := src.usWinAscent
    usWinDescent := src.usWinDescent
    sTypoAscender := src.sTypoAscender
    sTypoDescender := src.sTypoDescender
    sTypoLineGap := src.sTypoLineGap
    hheaAscent := src.hheaAscent
    hheaDescent := src.hheaDescent
    hheaLineGap := src.hheaLineGap }

/-- family_bounding_box (fix.py lines 561-564): min of yMin and max of
yMax over the family. The source is only called on a non-empty family
(Python min/max would raise on an empty one). -/
def family_bounding_box : List MFont → Int × Int
  | [] => (0, 0)
  | f :: rest =>
    (rest.foldl (fun acc g => min acc g.yMin) f.yMin,
     rest.foldl (fun acc g => max acc g.yMax) f.yMax)

/-- fix_vertical_metrics (fix.py lines 511-543) as a pure function from
the family to the family after mutation. The source picks the src font
(the member styled "Regular", else the first member) and mutates it in
place before the final copy loop; here the finalized src is computed
first and then copied onto every member, which yields the same final
list because the src font's earlier mutations only touch fields that
the final loop overwrites identically. -/
def fix_vertical_metrics (ttFonts : List MFont) : List MFont :=
  match (ttFonts.find? (fun f => decide (f.styleName = "Regular"))).orElse
      (fun _ => ttFonts.head?) with
  | none => []
  | some src0 =>
    let src1 :=
      if typo_metrics_enabled src0 then src0
      else { src0 with
              fsSelection := src0.fsSelection ||| (1 <<< 7)
              sTypoAscender := src0.usWinAscent
              sTypoDescender := -src0.usWinDescent
              sTypoLineGap := 0 }
    let src2 := { src1 with
              hheaAscent := src1.sTypoAscender
              hheaDescent := src1.sTypoDescender
              hheaLineGap := src1.sTypoLineGap }
    let bb := family_bounding_box ttFonts
    let src3 := { src2 with usWinAscent := bb.2, usWinDescent := |bb.1| }
    ttFonts.map (fun f =>
      copy_vertical_metrics src3 { f with fsSelection := f.fsSelection ||| (1 <<< 7) })

/-! ### STAT table synthesis (stylename_to_axes, gen_stat_tables) -/

/-- One fallback entry of an axis-registry record: a style name and its
numeric value. -/
structure FallbackRec where
  name : String
  value : Int
deriving Repr, DecidableEq

/-- One axis-registry record (gftools.axisreg is consumed read-only;
the registry itself is an input of every function below, as it is in
the source via the axisreg or axis_reg parameter). -/
structure AxisRecordReg where
  display_name : String
  default_value : Int
  fallback : List FallbackRec
deriving Repr, DecidableEq

/-- The axis registry: a Python dict from axis tag to record, modelled
as an association list in insertion order. -/
abbrev Registry := List (String × AxisRecordReg)

/-- One fvar axis of a variable font: tag, minValue, defaultValue,
maxValue. -/
structure FvarAxis where
  axisTag : String
  minValue : Int
  defaultValue : Int
  maxValue : Int
deriving Repr, DecidableEq

/-- The parts of a variable font that gen_stat_tables reads: its fvar
axes and its style name (as returned by font_stylename). -/
structure VFont where
  fvarAxes : List FvarAxis
  styleName : String
deriving Repr, DecidableEq

/-- An AxisValue dict built by _add_axis_value: value and name are
Options because the source can store None in either (value via a failed
next(..., None) lookup, name via _default_axis_value). -/
structure AxisValueOut where
  value : Option Int
  name : Option String
  flags : Nat
  linkedValue : Option Int
deriving Repr, DecidableEq

/-- One axis record of a synthesized stat table: tag, display name and
the list of AxisValues. -/
structure AxisRecordOut where
  tag : String
  name : String
  values : List AxisValueOut
deriving Repr, DecidableEq

/-- Python dict lookup d[k] on an association list whose keys are kept
unique (first match). -/
def dictLookup (l : List (String × α)) (k : String) : Option α :=
  (l.find? (fun p => decide (p.1 = k))).map (fun p => p.2)

/-- Python dict lookup for an association list that may carry duplicate
keys (e.g. one built by dict(zip(..)) or comprehension): the last
binding wins, as it does for a Python dict built left to right. -/
def dictLookupLast (l : List (String × α)) (k : String) : Option α :=
  (l.reverse.find? (fun p => decide (p.1 = k))).map (fun p => p.2)

/-- Python d[k] = v on a dict modelled as a unique-key association
list: overwrite in place if the key exists (a Python dict keeps the
original insertion position), else append. -/
def dictInsert (l : List (String × α)) (k : String) (v : α) : List (String × α) :=
  if l.any (fun p => decide (p.1 = k)) then
    l.map (fun p => if p.1 = k then (k, v) else p)
  else
    l ++ [(k, v)]

/-- stylename_to_axes (fix.py lines 644-672): for each whitespace token
of the style name, append the tag of every registry axis having a
fallback entry named by the token, in registry order. The seen set and
the warning for unparsed tokens do not influence the returned list. -/
def stylename_to_axes (axisreg : Registry) (font_style : String) : List String :=
  (splitWs font_style).foldl
    (fun axes token =>
      axisreg.foldl
        (fun axes p =>
          if token ∈ p.2.fallback.map (fun f => f.name) then axes ++ [p.1] else axes)
        axes)
    []

/-- The unparsed tokens of a style name (fix.py line 665): tokens
matching no registry fallback name; they are reported in a non-fatal
log warning and skipped. -/
def unparsedTokens (axisreg : Registry) (font_style : String) : List String :=
  (splitWs font_style).filter
    (fun token => !axisreg.any (fun p => token ∈ p.2.fallback.map (fun f => f.name)))

/-- _add_axis_value (fix.py lines 729-733). Python only attaches the
linkedValue key when linked_value is truthy, so a zero linked value is
dropped. -/
def _add_axis_value (style_name : Option String) (value : Option Int)
    (flags : Nat) (linked_value : Option Int) : AxisValueOut :=
  { value := value
    name := style_name
    flags := flags
    linkedValue :=
      match linked_value with
      | some v => if v = 0 then none else some v
      | none => none }

/-- ELIDABLE_AXIS_VALUE_NAME (fix.py line 56). -/
def ELIDABLE : Nat := 2

/-- _default_axis_value (fix.py lines 675-681), taking the already
looked-up registry record of the axis (the source looks it up from the
tag; its callers below perform that lookup): an elidable AxisValue at
the registry default value, named by the fallback entry carrying the
default value when there is one. -/
def _default_axis_value (rec : AxisRecordReg) : AxisValueOut :=
  _add_axis_value ((rec.fallback.find? (fun i => decide (i.value = rec.default_value))).map
      (fun i => i.name))
    (some rec.default_value) ELIDABLE none

/-- _gen_stat_using_fvar (fix.py lines 684-726): a per-font stat table
from the font's fvar axes and the registry, skipping fvar axes absent
from the registry; each registry fallback value within the axis's
declared range becomes an AxisValue, elidable when the axis is opsz and
the value equals the fvar default, or when the value equals the
registry default. -/
def _gen_stat_using_fvar (axis_reg : Registry) (font : VFont) :
    List (String × AxisRecordOut) :=
  let axis_defaults : List (String × Int) :=
    font.fvarAxes.map (fun a => (a.axisTag, a.defaultValue))
  font.fvarAxes.foldl
    (fun results axis =>
      match dictLookup axis_reg axis.axisTag with
      | none => results
      | some rec =>
        let values :=
          (rec.fallback.filter
              (fun f => decide (axis.minValue ≤ f.value ∧ f.value ≤ axis.maxValue))).map
            (fun f =>
              let av := _add_axis_value (some f.name) (some f.value) 0 none
              if axis.axisTag = "opsz" ∧ dictLookupLast axis_defaults axis.axisTag = some f.value then
                { av with flags := av.flags ||| ELIDABLE }
              else if f.value = rec.default_value then
                { av with flags := av.flags ||| ELIDABLE }
              else av)
        dictInsert results axis.axisTag
          { tag := axis.axisTag, name := rec.display_name, values := values })
    []

/-- Errors gen_stat_tables can raise: the ValueError for an incomplete
axis_order (fix.py line 828), and the Python KeyErrors of the dict
lookups stat_tbl[a] (line 831) and axis_reg[axis] (lines 785-796). -/
inductive StatError where
  | axisOrderMissing (axes : List String)
  | statKeyError (axis : String)
  | regKeyError (axis : String)
deriving Repr, DecidableEq

/-- Structural-recursion mapM for Except, used to model loops that can
raise: stops at the first error, like the Python loop. -/
def mapME (f : α → Except ε β) : List α → Except ε (List β)
  | [] => .ok []
  | x :: xs =>
    match f x with
    | .error e => .error e
    | .ok y =>
      match mapME f xs with
      | .error e => .error e
      | .ok ys => .ok (y :: ys)

/-- The axis record appended for one axis that the whole family implies
but the font's own stat table lacks (fix.py lines 782-801): an elidable
default AxisValue when the font's style-token dict has no entry for the
axis, else a non-elidable AxisValue for the token the dict pairs with
the axis (its value looked up among the axis's fallbacks, None when the
paired token is not a fallback name). -/
def missingAxisRecord (axis_reg : Registry)
    (font_style_tokens : List (String × String)) (axis : String) :
    Except StatError (String × AxisRecordOut) :=
  match dictLookup axis_reg axis with
  | none => .error (.regKeyError axis)
  | some rec =>
    match dictLookupLast font_style_tokens axis with
    | none =>
      .ok (axis, { tag := axis, name := rec.display_name, values := [_default_axis_value rec] })
    | some style_name =>
      let value := ((rec.fallback.find? (fun i => decide (i.name = style_name))).map
        (fun i => i.value))
      .ok (axis, { tag := axis, name := rec.display_name,
                   values := [_add_axis_value (some style_name) value 0 none] })

/-- The per-font stat table of gen_stat_tables (fix.py lines 772-802):
the fvar-derived table extended with records for the family axes the
font lacks. font_style_tokens is Python
dict(zip(font_style_axes, font_style.split())) (line 778), pairing
matched axis tags positionally with ALL tokens of the style name. -/
def buildStatTbl (axis_reg : Registry) (family_axes : List String) (font : VFont) :
    Except StatError (List (String × AxisRecordOut)) :=
  let stat0 := _gen_stat_using_fvar axis_reg font
  let font_style_axes := stylename_to_axes axis_reg font.styleName
  let font_style_tokens := font_style_axes.zip (splitWs font.styleName)
  let axes_missing := family_axes.filter (fun a => !stat0.any (fun p => decide (p.1 = a)))
  match mapME (missingAxisRecord axis_reg font_style_tokens) axes_missing with
  | .error e => .error e
  | .ok newEntries => .ok (stat0 ++ newEntries)

/-- The set union of the axes implied by every font's style name
(fix.py lines 766-769), kept as a duplicate-free list in
first-insertion order. -/
def familyAxes (axis_reg : Registry) (fonts : List VFont) : List String :=
  fonts.foldl
    (fun acc font =>
      (stylename_to_axes axis_reg font.styleName).foldl
        (fun acc a => if a ∈ acc then acc else acc ++ [a]) acc)
    []

/-- The per-font stat tables of a family, before linked values are
added (fix.py lines 771-802). -/
def statTblsOf (axis_reg : Registry) (fonts : List VFont) :
    Except StatError (List (List (String × AxisRecordOut))) :=
  mapME (buildStatTbl axis_reg (familyAxes axis_reg fonts)) fonts

/-- seen_axis_values for one axis tag (fix.py lines 805-812): every
AxisValue value observed for the axis across all the family's stat
tables (a Python set; list membership stands for set membership). -/
def seenAxisValues (tbls : List (List (String × AxisRecordOut))) (axis : String) :
    List (Option Int) :=
  tbls.flatMap
    (fun tbl =>
      match dictLookup tbl axis with
      | some rec => rec.values.map (fun v => v.value)
      | none => [])

/-- LINKED_VALUES (fix.py lines 61-64): wght 400 links to 700, ital 0.0
links to 1.0. -/
def LINKED_VALUES : List (String × Int × Int) := [("wght", 400, 700), ("ital", 0, 1)]

/-- The per-AxisValue step of the linked-value pass (fix.py lines
818-820): an AxisValue equal to the pair's start gets linkedValue = the
pair's end, provided the end value is in the observed value set. -/
def linkValue (seen : List (Option Int)) (se : Int × Int) (v : AxisValueOut) : AxisValueOut :=
  if v.value = some se.1 ∧ some se.2 ∈ seen then { v with linkedValue := some se.2 } else v

/-- The per-axis-entry step of the linked-value pass (fix.py lines
814-820): entries whose tag has no LINKED_VALUES pair are untouched. -/
def linkEntry (tbls : List (List (String × AxisRecordOut)))
    (p : String × AxisRecordOut) : String × AxisRecordOut :=
  match dictLookup LINKED_VALUES p.1 with
  | none => p
  | some se =>
    (p.1, { p.2 with values := p.2.values.map (linkValue (seenAxisValues tbls p.1) se) })

/-- The linked-value pass of gen_stat_tables (fix.py lines 804-820):
the observed value sets are collected over all tables first, then every
table's entries are annotated. -/
def addLinkedValues (tbls : List (List (String × AxisRecordOut))) :
    List (List (String × AxisRecordOut)) :=
  tbls.map (fun tbl => tbl.map (linkEntry tbls))

/-- seen_axes (fix.py line 825): every axis tag of every stat table (a
Python set; only membership is used). -/
def seenAxes (tbls : List (List (String × AxisRecordOut))) : List String :=
  tbls.flatMap (fun tbl => tbl.map (fun p => p.1))

/-- The per-AxisValue step of _update_elided_axis_values (fix.py lines
848-852): set the elidable bit when the value is listed, clear it
otherwise. Python's flags &= ~ELIDABLE_AXIS_VALUE_NAME on a
non-negative int clears exactly bit 1, which on Nat is
flags - (flags &&& ELIDABLE). -/
def elideValue (vs : List Int) (val : AxisValueOut) : AxisValueOut :=
  if vs.any (fun x => decide (val.value = some x)) then
    { val with flags := val.flags ||| ELIDABLE }
  else
    { val with flags := val.flags - (val.flags &&& ELIDABLE) }

/-- The per-axis step of _update_elided_axis_values (fix.py lines
845-852): axes whose tag the override dict does not list are
untouched. -/
def elideRec (elided_values : List (String × List Int)) (axis : AxisRecordOut) : AxisRecordOut :=
  match dictLookup elided_values axis.tag with
  | none => axis
  | some vs => { axis with values := axis.values.map (elideValue vs) }

/-- _update_elided_axis_values (fix.py lines 839-852): on every axis
whose tag the override dict lists, set the elidable bit of each listed
AxisValue and clear it on each unlisted one. -/
def _update_elided_axis_values (stat : List AxisRecordOut)
    (elided_values : List (String × List Int)) : List AxisRecordOut :=
  stat.map (elideRec elided_values)

/-- The per-font axis list construction of gen_stat_tables (fix.py
line 831): look each ordered axis up in the font's stat table; a
missing key is the Python KeyError. -/
def statLookupAxes (tbl : List (String × AxisRecordOut)) (order2 : List String) :
    Except StatError (List AxisRecordOut) :=
  mapME
    (fun a =>
      match dictLookup tbl a with
      | some rec => Except.ok rec
      | none => Except.error (StatError.statKeyError a))
    order2

/-- The per-font tail of gen_stat_tables (fix.py lines 830-835): the
ordered axis lookups followed by the optional elision override. -/
def buildFontAxes (elided_axis_values : Option (List (String × List Int)))
    (order2 : List String) (tbl : List (String × AxisRecordOut)) :
    Except StatError (List AxisRecordOut) :=
  match statLookupAxes tbl order2 with
  | .error e => .error e
  | .ok axes =>
    .ok (match elided_axis_values with
         | some ev => _update_elided_axis_values axes ev
         | none => axes)

/-- gen_stat_tables (fix.py lines 737-835) as a function returning, for
each font in order, the ordered axis list handed to buildStatTable
(the external STAT builder), or the first exception the source run
would raise. -/
def gen_stat_tables (fonts : List VFont) (axis_order : List String)
    (elided_axis_values : Option (List (String × List Int))) (axis_reg : Registry) :
    Except StatError (List (List AxisRecordOut)) :=
  match statTblsOf axis_reg fonts with
  | .error e => .error e
  | .ok stat_tbls0 =>
    let stat_tbls := addLinkedValues stat_tbls0
    let seen_axes := seenAxes stat_tbls
    let axes_not_ordered := seen_axes.filter (fun a => a ∉ axis_order)
    if axes_not_ordered.isEmpty then
      mapME
        (buildFontAxes elided_axis_values (axis_order.filter (fun a => a ∈ seen_axes)))
        stat_tbls
    else .error (.axisOrderMissing axes_not_ordered)

/-! ### fix_font / fix_family orchestration, as an ordered trace -/

/-- The fix steps fix_font and fix_family (fix.py lines 587-641) can
apply, in the order the source applies them. statFix stands for STAT
synthesis (gen_stat_tables), which fix.py lines 615-616 leave as a
TODO and never invoke; inheritMetrics / skipInherit / skipNoApiKey are
the three outcomes of the regression-fix block (lines 627-640). -/
inductive FixStep where
  | os2Version
  | dummyDsig
  | hintedFix
  | unhintedFix
  | removeMvar
  | removeTables
  | nametableFix
  | fsTypeFix
  | fsSelectionFix
  | macStyleFix
  | weightClassFix
  | italicAngleFix
  | fvarInstancesFix
  | statFix
  | inheritMetrics
  | skipInherit
  | skipNoApiKey
  | verticalMetricsFix
deriving Repr, DecidableEq

/-- The table-presence facts of a font that decide fix_font's
branches. -/
structure TraceFont where
  hasDsig : Bool
  hasFpgm : Bool
  hasFvar : Bool
deriving Repr, DecidableEq

/-- The external conditions of fix_family's regression-fix block:
whether the Google Fonts api key is available (its absence raises
FileNotFoundError, caught at fix.py lines 636-640) and whether Google
Fonts hosts the family. -/
structure FixEnv where
  apiKeyPresent : Bool
  gfHasFamily : Bool
deriving Repr, DecidableEq

/-- fix_font (fix.py lines 587-616) as the ordered trace of steps it
applies to one font. -/
def fix_font_trace (font : TraceFont) (include_source_fixes : Bool) : List FixStep :=
  [FixStep.os2Version] ++
  (if font.hasDsig then [] else [FixStep.dummyDsig]) ++
  (if font.hasFpgm then [FixStep.hintedFix] else [FixStep.unhintedFix]) ++
  (if font.hasFvar then [FixStep.removeMvar] else []) ++
  (if include_source_fixes then
    [FixStep.removeTables, FixStep.nametableFix, FixStep.fsTypeFix,
     FixStep.fsSelectionFix, FixStep.macStyleFix, FixStep.weightClassFix,
     FixStep.italicAngleFix] ++
    (if font.hasFvar then [FixStep.fvarInstancesFix] else [])
   else [])

/-- fix_family (fix.py lines 619-641) as the ordered trace of steps it
applies to a family that passed _validate_family. -/
def fix_family_trace (fonts : List TraceFont) (env : FixEnv)
    (include_source_fixes : Bool) : List FixStep :=
  fonts.flatMap (fun f => fix_font_trace f include_source_fixes) ++
  (if include_source_fixes then
    (if !env.apiKeyPresent then [FixStep.skipNoApiKey]
     else if env.gfHasFamily then [FixStep.inheritMetrics]
     else [FixStep.skipInherit]) ++
    [FixStep.verticalMetricsFix]
   else [])

/-! ### Concrete test data used by witnesses and counterexamples -/

/-- A small concrete axis registry (the registry is an external input;
any concrete value is a valid instance). -/
def testReg : Registry :=
  [("opsz", { display_name := "Optical Size", default_value := 14,
              fallback := [{ name := "Standard", value := 14 },
                           { name := "Display", value := 144 }] }),
   ("wght", { display_name := "Weight", default_value := 400,
              fallback := [{ name := "Regular", value := 400 },
                           { name := "Bold", value := 700 }] }),
   ("ital", { display_name := "Italic", default_value := 0,
              fallback := [{ name := "Italic", value := 1 }] })]

/-- A registry in which one token names fallbacks of two axes. -/
def regAmb : Registry :=
  [("aaaa", { display_name := "A", default_value := 0,
              fallback := [{ name := "Wonky", value := 1 }] }),
   ("bbbb", { display_name := "B", default_value := 0,
              fallback := [{ name := "Wonky", value := 2 }] })]

/-- A Regular-styled variable font varying wght over 400-700. -/
def wfR : VFont := { fvarAxes := [{ axisTag := "wght", minValue := 400,
                                    defaultValue := 400, maxValue := 700 }],
                     styleName := "Regular" }

/-- A Bold-styled variable font varying wght over 400-700. -/
def wfB : VFont := { fvarAxes := [{ axisTag := "wght", minValue := 400,
                                    defaultValue := 700, maxValue := 700 }],
                     styleName := "Bold" }

/-- A Regular-styled variable font varying only opsz. -/
def wfOpsz : VFont := { fvarAxes := [{ axisTag := "opsz", minValue := 8,
                                       defaultValue := 14, maxValue := 144 }],
                        styleName := "Regular" }

/-- A font whose style name carries the unmatched token Foo ahead of
the weight token Bold, and whose fvar varies only ital. -/
def wfFooBold : VFont := { fvarAxes := [{ axisTag := "ital", minValue := 0,
                                          defaultValue := 0, maxValue := 1 }],
                           styleName := "Foo Bold" }

/-- Two concrete metrics fonts for the vertical-metrics witness. -/
def mfA : MFont :=
  { usWinAscent := 900, usWinDescent := 300, sTypoAscender := 800,
    sTypoDescender := -200, sTypoLineGap := 0, hheaAscent := 800,
    hheaDescent := -200, hheaLineGap := 0, fsSelection := 64,
    yMin := -200, yMax := 800, styleName := "Regular" }

/-- Second concrete metrics font, with different metrics and style. -/
def mfB : MFont :=
  { usWinAscent := 1000, usWinDescent := 350, sTypoAscender := 750,
    sTypoDescender := -250, sTypoLineGap := 10, hheaAscent := 760,
    hheaDescent := -240, hheaLineGap := 5, fsSelection := 32,
    yMin := -210, yMax := 790, styleName := "Bold" }

/-- A hinted static font carrying a DSIG, for the orchestration
counterexample. -/
def tfStatic : TraceFont := { hasDsig := true, hasFpgm := true, hasFvar := false }

/-- An environment with the api key present and the family hosted. -/
def envFull : FixEnv := { apiKeyPresent := true, gfHasFamily := true }

/-! ### Helper lemmas -/

theorem mapME_ok_forall₂ {f : α → Except ε β} :
    ∀ {l : List α} {ys : List β}, mapME f l = .ok ys →
      List.Forall₂ (fun x y => f x = .ok y) l ys := by
  intro l
  induction l with
  | nil =>
    intro ys h
    simp only [mapME] at h
    cases h
    exact List.Forall₂.nil
  | cons x xs ih =>
    intro ys h
    simp only [mapME] at h
    cases hx : f x with
    | error e => rw [hx] at h; cases h
    | ok y =>
      rw [hx] at h
      cases hxs : mapME f xs with
      | error e => rw [hxs] at h; cases h
      | ok ys0 =>
        rw [hxs] at h
        cases h
        exact List.Forall₂.cons hx (ih hxs)

theorem mapME_ok_length {f : α → Except ε β} {l : List α} {ys : List β}
    (h : mapME f l = .ok ys) : ys.length = l.length :=
  (List.Forall₂.length_eq (mapME_ok_forall₂ h)).symm

theorem mapME_ok_mem {f : α → Except ε β} :
    ∀ {l : List α} {ys : List β}, mapME f l = .ok ys → ∀ y ∈ ys, ∃ x ∈ l, f x = .ok y := by
  intro l
  induction l with
  | nil =>
    intro ys h y hy
    simp only [mapME] at h
    cases h
    cases hy
  | cons x xs ih =>
    intro ys h y hy
    simp only [mapME] at h
    cases hx : f x with
    | error e => rw [hx] at h; cases h
    | ok y0 =>
      rw [hx] at h
      cases hxs : mapME f xs with
      | error e => rw [hxs] at h; cases h
      | ok ys0 =>
        rw [hxs] at h
        cases h
        rcases List.mem_cons.mp hy with h1 | h1
        · exact ⟨x, List.mem_cons_self _ _, h1 ▸ hx⟩
        · rcases ih hxs y h1 with ⟨x1, hx1, hfx1⟩
          exact ⟨x1, List.mem_cons_of_mem _ hx1, hfx1⟩

theorem forall₂_map_eq {R : α → β → Prop} {g : β → α} :
    ∀ {l : List α} {ys : List β}, List.Forall₂ R l ys →
      (∀ x y, R x y → g y = x) → ys.map g = l := by
  intro l ys h hg
  induction h with
  | nil => rfl
  | cons hxy htail ih => simp [List.map_cons, hg _ _ hxy, ih]

theorem dictLookup_mem {l : List (String × α)} {k : String} {v : α}
    (h : dictLookup l k = some v) : (k, v) ∈ l := by
  simp only [dictLookup, Option.map_eq_some'] at h
  rcases h with ⟨p, hp, hv⟩
  have hmem := List.mem_of_find?_eq_some hp
  have hk := List.find?_some hp
  simp only [decide_eq_true_eq] at hk
  rw [← hv, ← hk]
  exact hmem

theorem dictInsert_mem {l : List (String × α)} {k : String} {v : α} {p : String × α}
    (h : p ∈ dictInsert l k v) : p ∈ l ∨ p = (k, v) := by
  simp only [dictInsert] at h
  by_cases hc : l.any (fun p => decide (p.1 = k)) = true
  · rw [if_pos hc] at h
    rcases List.mem_map.mp h with ⟨q, hq, hpq⟩
    by_cases hqk : q.1 = k
    · right; rw [← hpq, if_pos hqk]
    · left; rw [← hpq, if_neg hqk]; exact hq
  · rw [if_neg hc] at h
    rcases List.mem_append.mp h with h1 | h1
    · exact Or.inl h1
    · right; simpa using h1

theorem foldl_preserve {β γ : Type} (step : List β → γ → List β) (P : β → Prop)
    (hstep : ∀ acc a, (∀ p ∈ acc, P p) → ∀ p ∈ step acc a, P p) :
    ∀ (l : List γ) (acc : List β), (∀ p ∈ acc, P p) → ∀ p ∈ l.foldl step acc, P p := by
  intro l
  induction l with
  | nil => intro acc hacc; exact hacc
  | cons a as ih => intro acc hacc; exact ih _ (hstep _ _ hacc)

/-- The structural facts every entry of a freshly synthesized stat
table satisfies: the record's tag equals its dict key, and no AxisValue
carries a linkedValue yet (linked values are only added by the later
pass). -/
def entryInv (p : String × AxisRecordOut) : Prop :=
  p.2.tag = p.1 ∧ ∀ v ∈ p.2.values, v.linkedValue = none

theorem gen_stat_using_fvar_inv (axis_reg : Registry) (font : VFont) :
    ∀ p ∈ _gen_stat_using_fvar axis_reg font, entryInv p := by
  unfold _gen_stat_using_fvar
  apply foldl_preserve _ entryInv _ _ _ (by intro p hp; cases hp)
  intro acc axis hacc p hp
  cases hl : dictLookup axis_reg axis.axisTag with
  | none => rw [hl] at hp; exact hacc p hp
  | some rec =>
    rw [hl] at hp
    rcases dictInsert_mem hp with h1 | h1
    · exact hacc p h1
    · subst h1
      refine ⟨rfl, ?_⟩
      intro v hv
      simp only [List.mem_map] at hv
      rcases hv with ⟨f, hf, hvf⟩
      rw [← hvf]
      simp only [_add_axis_value]
      split
      · rfl
      · split <;> rfl

theorem missingAxisRecord_ok {axis_reg : Registry} {toks : List (String × String)}
    {a : String} {p : String × AxisRecordOut}
    (h : missingAxisRecord axis_reg toks a = .ok p) : p.1 = a ∧ entryInv p := by
  unfold missingAxisRecord at h
  cases hl : dictLookup axis_reg a with
  | none => rw [hl] at h; cases h
  | some rec =>
    rw [hl] at h
    cases ht : dictLookupLast toks a with
    | none =>
      rw [ht] at h
      cases h
      exact ⟨rfl, rfl, by intro v hv; simp only [List.mem_singleton] at hv; subst hv; rfl⟩
    | some style_name =>
      rw [ht] at h
      cases h
      exact ⟨rfl, rfl, by intro v hv; simp only [List.mem_singleton] at hv; subst hv; rfl⟩

theorem buildStatTbl_inv {axis_reg : Registry} {family_axes : List String} {font : VFont}
    {tbl : List (String × AxisRecordOut)}
    (h : buildStatTbl axis_reg family_axes font = .ok tbl) : ∀ p ∈ tbl, entryInv p := by
  simp only [buildStatTbl] at h
  cases hm : mapME (missingAxisRecord axis_reg
      ((stylename_to_axes axis_reg font.styleName).zip (splitWs font.styleName)))
      (family_axes.filter (fun a =>
        !(_gen_stat_using_fvar axis_reg font).any (fun p => decide (p.1 = a)))) with
  | error e => rw [hm] at h; cases h
  | ok newEntries =>
    rw [hm] at h
    cases h
    intro p hp
    rcases List.mem_append.mp hp with h1 | h1
    · exact gen_stat_using_fvar_inv _ _ p h1
    · rcases mapME_ok_mem hm p h1 with ⟨a, _, hfa⟩
      exact (missingAxisRecord_ok hfa).2

theorem linkEntry_fst (tbls : List (List (String × AxisRecordOut)))
    (p : String × AxisRecordOut) : (linkEntry tbls p).1 = p.1 := by
  unfold linkEntry
  cases dictLookup LINKED_VALUES p.1 <;> rfl

theorem linkEntry_tag (tbls : List (List (String × AxisRecordOut)))
    (p : String × AxisRecordOut) : (linkEntry tbls p).2.tag = p.2.tag := by
  unfold linkEntry
  cases dictLookup LINKED_VALUES p.1 <;> rfl

theorem elideRec_tag (ev : List (String × List Int)) (axis : AxisRecordOut) :
    (elideRec ev axis).tag = axis.tag := by
  unfold elideRec
  cases dictLookup ev axis.tag <;> rfl

theorem elideValue_value (vs : List Int) (val : AxisValueOut) :
    (elideValue vs val).value = val.value := by
  unfold elideValue
  split <;> rfl

theorem elideValue_linkedValue (vs : List Int) (val : AxisValueOut) :
    (elideValue vs val).linkedValue = val.linkedValue := by
  unfold elideValue
  split <;> rfl

theorem dictLookup_LINKED_VALUES (k : String) :
    dictLookup LINKED_VALUES k =
      if k = "wght" then some (400, 700)
      else if k = "ital" then some (0, 1) else none := by
  by_cases h1 : k = "wght"
  · subst h1; rfl
  · by_cases h2 : k = "ital"
    · subst h2; rfl
    · have hw : decide ("wght" = k) = false :=
        decide_eq_false (fun hh => h1 hh.symm)
      have hi : decide ("ital" = k) = false :=
        decide_eq_false (fun hh => h2 hh.symm)
      simp [dictLookup, LINKED_VALUES, List.find?, hw, hi, h1, h2]

theorem or_elidable_ne_zero (f : Nat) : (f ||| ELIDABLE) &&& ELIDABLE ≠ 0 := by
  intro h
  have ht : ((f ||| ELIDABLE) &&& ELIDABLE).testBit 1 = false := by
    rw [h]; exact Nat.zero_testBit 1
  rw [Nat.testBit_land, Nat.testBit_lor] at ht
  have h2 : (ELIDABLE).testBit 1 = true := by decide
  rw [h2] at ht
  simp at ht

theorem and_elidable_eq (f : Nat) : f &&& ELIDABLE = (f.testBit 1).toNat * 2 := by
  have h := Nat.and_two_pow f 1
  norm_num at h
  simpa [ELIDABLE] using h

theorem and_elidable_div_mod (f : Nat) : f &&& ELIDABLE = f / 2 % 2 * 2 := by
  rw [and_elidable_eq, Nat.testBit_to_div_mod]
  norm_num
  rcases Nat.mod_two_eq_zero_or_one (f / 2) with h | h <;> simp [h]

theorem sub_and_elidable_eq_zero (f : Nat) : (f - (f &&& ELIDABLE)) &&& ELIDABLE = 0 := by
  rw [and_elidable_div_mod (f - (f &&& ELIDABLE)), and_elidable_div_mod f]
  omega

theorem testBit7_or_128 (n : Nat) : (n ||| (1 <<< 7)).testBit 7 = true := by
  rw [Nat.testBit_lor]
  have h : (1 <<< 7 : Nat).testBit 7 = true := by decide
  rw [h]
  simp

/-! ### Claim C4: stylename_to_axes token handling -/

theorem stylename_foldl_inner (token : String) :
    ∀ (l : Registry) (acc : List String),
      l.foldl (fun axes p =>
          if token ∈ p.2.fallback.map (fun f => f.name) then axes ++ [p.1] else axes) acc =
        acc ++ (l.filter (fun p =>
          decide (token ∈ p.2.fallback.map (fun f => f.name)))).map (fun p => p.1) := by
  intro l
  induction l with
  | nil => intro acc; simp
  | cons p ps ih =>
    intro acc
    by_cases hc : token ∈ p.2.fallback.map (fun f => f.name)
    · have hd : decide (token ∈ p.2.fallback.map (fun f => f.name)) = true :=
        decide_eq_true hc
      rw [List.foldl_cons, if_pos hc, ih, List.filter_cons, hd, if_pos rfl]
      simp only [List.map_cons, List.append_assoc, List.singleton_append]
    · have hd : decide (token ∈ p.2.fallback.map (fun f => f.name)) = false :=
        decide_eq_false hc
      rw [List.foldl_cons, if_neg hc, ih, List.filter_cons, hd, if_neg (by decide)]

/-- C4 counterexample: with a registry in which the token Wonky names a
fallback of both axis aaaa and axis bbbb, stylename_to_axes emits BOTH
tags for the single token, not exactly one tag for the first matching
axis as the claim states. -/
theorem stylename_to_axes_first_match_cx :
    stylename_to_axes regAmb "Wonky" = ["aaaa", "bbbb"] ∧
    stylename_to_axes regAmb "Wonky" ≠ ["aaaa"] := by
  constructor
  · rfl
  · decide

/-- C4 (amended): for every registry and style name, stylename_to_axes
emits, for each whitespace token in input order, one axis tag for EVERY
registry axis having a fallback named by the token (in registry order),
not only the first matching axis; tokens matching no axis contribute
nothing (they are only reported in a non-fatal log warning), and no
deduplication is performed. -/
theorem stylename_to_axes_characterization (reg : Registry) (s : String) :
    stylename_to_axes reg s =
      (splitWs s).flatMap (fun token =>
        (reg.filter (fun p =>
          decide (token ∈ p.2.fallback.map (fun f => f.name)))).map (fun p => p.1)) := by
  unfold stylename_to_axes
  suffices hgen : ∀ (toks : List String) (acc : List String),
      toks.foldl (fun axes token =>
        reg.foldl (fun axes p =>
          if token ∈ p.2.fallback.map (fun f => f.name) then axes ++ [p.1] else axes) axes) acc =
      acc ++ toks.flatMap (fun token =>
        (reg.filter (fun p =>
          decide (token ∈ p.2.fallback.map (fun f => f.name)))).map (fun p => p.1)) by
    simpa using hgen (splitWs s) []
  intro toks
  induction toks with
  | nil => intro acc; simp
  | cons t ts ih =>
    intro acc
    simp only [List.foldl_cons, List.flatMap_cons]
    rw [stylename_foldl_inner, ih, List.append_assoc]

/-! ### Claim C5: fix_family orchestration -/

theorem fix_font_trace_no_stat (f : TraceFont) (b : Bool) :
    FixStep.statFix ∉ fix_font_trace f b := by
  obtain ⟨d, p, v⟩ := f
  cases d <;> cases p <;> cases v <;> cases b <;> decide

theorem fix_font_trace_no_inherit (f : TraceFont) (b : Bool) :
    FixStep.inheritMetrics ∉ fix_font_trace f b := by
  obtain ⟨d, p, v⟩ := f
  cases d <;> cases p <;> cases v <;> cases b <;> decide

theorem fix_font_trace_count_nametable (f : TraceFont) :
    (fix_font_trace f true).count FixStep.nametableFix = 1 := by
  obtain ⟨d, p, v⟩ := f
  cases d <;> cases p <;> cases v <;> decide

theorem fix_font_trace_head (f : TraceFont) :
    (fix_font_trace f true).head? = some FixStep.os2Version := by
  obtain ⟨d, p, v⟩ := f
  cases d <;> cases p <;> cases v <;> decide

theorem fix_font_trace_mem_nametable (f : TraceFont) :
    FixStep.nametableFix ∈ fix_font_trace f true := by
  obtain ⟨d, p, v⟩ := f
  cases d <;> cases p <;> cases v <;> decide

theorem flatMap_count_nametable :
    ∀ fonts : List TraceFont,
      ((fonts.flatMap (fun f => fix_font_trace f true)).count FixStep.nametableFix) =
        fonts.length := by
  intro fonts
  induction fonts with
  | nil => rfl
  | cons f fs ih =>
    simp only [List.flatMap_cons, List.count_append, ih,
      fix_font_trace_count_nametable, List.length_cons]
    omega

/-- C5 counterexample: on a concrete two-font family with source fixes
enabled, no STAT-synthesis step ever appears in the trace (fix.py
leaves gen-stat as a TODO, lines 615-616), and a name-table fix of the
first font precedes a structural fix of the second font, so name fixes
are not a phase that follows all per-font structural fixes. -/
theorem fix_family_trace_stat_missing_cx :
    FixStep.statFix ∉ fix_family_trace [tfStatic, tfStatic] envFull true ∧
    (fix_family_trace [tfStatic, tfStatic] envFull true)[3]? = some FixStep.nametableFix ∧
    (fix_family_trace [tfStatic, tfStatic] envFull true)[9]? = some FixStep.os2Version := by
  refine ⟨?_, ?_, ?_⟩ <;> decide

/-- C5 (amended): with source fixes enabled, fix_family applies to each
member in turn its structural fixes followed by that member's
name-table fixes (STAT fixes are never applied; gen_stat_tables is left
unconnected as a TODO), then runs the reference-metrics block whose
inherit step happens exactly when the api key is present and Google
Fonts hosts the family (silently skipping otherwise), and always ends
with local vertical-metrics harmonization. -/
theorem fix_family_trace_order (fonts : List TraceFont) (env : FixEnv) :
    (fix_family_trace fonts env true).getLast? = some FixStep.verticalMetricsFix ∧
    FixStep.statFix ∉ fix_family_trace fonts env true ∧
    (FixStep.inheritMetrics ∈ fix_family_trace fonts env true ↔
      env.apiKeyPresent = true ∧ env.gfHasFamily = true) ∧
    (fix_family_trace fonts env true).count FixStep.nametableFix = fonts.length ∧
    (∀ f ∈ fonts, (fix_font_trace f true).head? = some FixStep.os2Version ∧
      FixStep.nametableFix ∈ fix_font_trace f true) := by
  obtain ⟨ak, gf⟩ := env
  refine ⟨?_, ?_, ?_, ?_, ?_⟩
  · cases ak <;> cases gf <;>
      simp [fix_family_trace, List.getLast?_append]
  · intro hmem
    simp only [fix_family_trace] at hmem
    rcases List.mem_append.mp hmem with h1 | h1
    · rcases List.mem_flatMap.mp h1 with ⟨f, _, hm⟩
      exact fix_font_trace_no_stat f true hm
    · cases ak <;> cases gf <;> exact absurd h1 (by decide)
  · cases ak <;> cases gf <;>
      simp [fix_family_trace, List.mem_append, List.mem_flatMap,
        fix_font_trace_no_inherit]
  · simp only [fix_family_trace, List.count_append, flatMap_count_nametable]
    cases ak <;> cases gf <;> simp
  · intro f _
    exact ⟨fix_font_trace_head f, fix_font_trace_mem_nametable f⟩

/-! ### Claim C10: fix_weight_class on unknown weight tokens -/

theorem mem_insertLenDesc {x p : String × Nat} :
    ∀ {l : List (String × Nat)}, p ∈ insertLenDesc x l ↔ p = x ∨ p ∈ l := by
  intro l
  induction l with
  | nil => simp [insertLenDesc]
  | cons y ys ih =>
    simp only [insertLenDesc]
    split
    · simp
    · simp only [List.mem_cons, ih]
      tauto

theorem mem_sortLenDesc {p : String × Nat} :
    ∀ {l : List (String × Nat)}, p ∈ sortLenDesc l ↔ p ∈ l := by
  intro l
  induction l with
  | nil => simp [sortLenDesc]
  | cons y ys ih =>
    simp only [sortLenDesc, mem_insertLenDesc, ih, List.mem_cons]

/-- C10 counterexample: the style name Foo contains no weight-vocabulary
token and fix_weight_class raises the fatal ValueError instead of
recovering with a warning and a fallback. -/
theorem fix_weight_class_fatal_cx :
    (∀ t ∈ splitWs "Foo", ∀ p ∈ WEIGHT_NAMES, t ≠ p.1) ∧
    ∃ e, fix_weight_class "Foo" = Except.error e :=
  ⟨by decide,
   ⟨"Cannot determine usWeightClass because font style, Foo does not have a weight token which is in our known weights",
    by rfl⟩⟩

/-- C10 (amended): when the style name has no token from the weight
vocabulary, fix_weight_class recovers with the conservative fallback
400 only when an Italic token is present; otherwise it raises the fatal
ValueError (the unknown-weight case is not a locally recovered lookup
miss). -/
theorem fix_weight_class_unknown_weight (s : String)
    (h : ∀ t ∈ splitWs s, ∀ p ∈ WEIGHT_NAMES, t ≠ p.1) :
    ("Italic" ∈ splitWs s ∧ fix_weight_class s = .ok 400) ∨
    ("Italic" ∉ splitWs s ∧ ∃ e, fix_weight_class s = Except.error e) := by
  have hfind : (sortLenDesc WEIGHT_NAMES).find?
      (fun p => decide (p.1 ∈ splitWs s)) = none := by
    rw [List.find?_eq_none]
    intro p hp
    simp only [decide_eq_true_eq]
    intro hmem
    exact h p.1 hmem p (mem_sortLenDesc.mp hp) rfl
  by_cases hi : "Italic" ∈ splitWs s
  · left
    refine ⟨hi, ?_⟩
    simp only [fix_weight_class, hfind]
    rw [if_pos hi]
  · right
    refine ⟨hi, ?_⟩
    simp only [fix_weight_class, hfind]
    rw [if_neg hi]
    exact ⟨_, rfl⟩

/-- C10 witness: a style with no weight token but an Italic token
recovers to 400 through the theorem. -/
theorem fix_weight_class_unknown_weight_witness :
    (∀ t ∈ splitWs "Foo Italic", ∀ p ∈ WEIGHT_NAMES, t ≠ p.1) ∧
    (("Italic" ∈ splitWs "Foo Italic" ∧ fix_weight_class "Foo Italic" = .ok 400) ∨
     ("Italic" ∉ splitWs "Foo Italic" ∧ ∃ e, fix_weight_class "Foo Italic" = Except.error e)) :=
  ⟨by decide, fix_weight_class_unknown_weight "Foo Italic" (by decide)⟩

/-! ### Claim C9: idempotence of the name derivation -/

/-- C9 counterexample: the style name with a trailing space consists
only of the weight token Bold, yet rederiving the name fields from the
first derivation's output (family = nameID16 else nameID1, style =
nameID17 else nameID2, as font_familyname/font_stylename read them)
changes every field: the renormalized style Bold is RIBBI on the second
run while the original string was not. -/
theorem update_nametable_not_idempotent_cx :
    (∀ t ∈ splitWs "Bold ", t ∈ weightNameKeys ∨ t = "Italic") ∧
    update_nametable_ids
        ((update_nametable_ids "Fam" "Bold ").n16.getD (update_nametable_ids "Fam" "Bold ").n1)
        ((update_nametable_ids "Fam" "Bold ").n17.getD (update_nametable_ids "Fam" "Bold ").n2)
      ≠ update_nametable_ids "Fam" "Bold " := by
  refine ⟨?_, ?_⟩ <;> decide

/-- C9 (amended): the name derivation is idempotent for inputs that are
already in the normal form the derivation itself produces: a family
name unchanged by appending a space and stripping (no trailing
whitespace) and a style name equal to the space-join of its own tokens,
all of which lie in the weight vocabulary or are Italic. -/
theorem update_nametable_idempotent (fam sty : String)
    (h1 : strip (fam ++ " ") = fam)
    (h2 : joinSp (splitWs sty) = sty)
    (h3 : ∀ t ∈ splitWs sty, t ∈ weightNameKeys ∨ t = "Italic") :
    update_nametable_ids
        ((update_nametable_ids fam sty).n16.getD (update_nametable_ids fam sty).n1)
        ((update_nametable_ids fam sty).n17.getD (update_nametable_ids fam sty).n2)
      = update_nametable_ids fam sty := by
  by_cases hr : sty ∈ ribbiStyles
  · simp [update_nametable_ids, hr]
  · have h16 : (update_nametable_ids fam sty).n16 = some fam := by
      have hfil : (splitWs sty).filter (fun t => decide (t ∉ weightNameKeys ++ ["Italic"])) = [] := by
        rw [List.filter_eq_nil_iff]
        intro a ha
        simp only [decide_eq_true_eq, List.mem_append, List.mem_singleton, not_not]
        rcases h3 a ha with hk | hk
        · simp [hk]
        · simp [hk]
      have hjoin : joinSp ([] : List String) = "" := rfl
      simp only [update_nametable_ids, if_neg hr, hfil, hjoin]
      rw [show fam ++ " " ++ "" = fam ++ " " by simp]
      exact congrArg some h1
    have h17 : (update_nametable_ids fam sty).n17 = some sty := by
      have hfil : (splitWs sty).filter (fun t => decide (t ∈ weightNameKeys ++ ["Italic"]))
          = splitWs sty := by
        rw [List.filter_eq_self]
        intro a ha
        simp only [decide_eq_true_eq, List.mem_append, List.mem_singleton]
        rcases h3 a ha with hk | hk
        · exact Or.inl hk
        · exact Or.inr hk
      simp only [update_nametable_ids, if_neg hr, hfil]
      exact congrArg some h2
    rw [h16, h17]
    simp

/-- C9 witness: a normalized two-token style made of a weight token and
Italic is a fixed point of the derivation. -/
theorem update_nametable_idempotent_witness :
    strip ("Fam" ++ " ") = "Fam" ∧
    joinSp (splitWs "SemiBold Italic") = "SemiBold Italic" ∧
    (∀ t ∈ splitWs "SemiBold Italic", t ∈ weightNameKeys ∨ t = "Italic") ∧
    update_nametable_ids
        ((update_nametable_ids "Fam" "SemiBold Italic").n16.getD
          (update_nametable_ids "Fam" "SemiBold Italic").n1)
        ((update_nametable_ids "Fam" "SemiBold Italic").n17.getD
          (update_nametable_ids "Fam" "SemiBold Italic").n2)
      = update_nametable_ids "Fam" "SemiBold Italic" :=
  ⟨by decide, by decide, by decide,
   update_nametable_idempotent "Fam" "SemiBold Italic" (by decide) (by decide) (by decide)⟩

/-! ### Claim C6: non-RIBBI name derivation -/

/-- C6: for every non-RIBBI style name, nameID2 is Italic exactly when
an Italic token is present (else Regular), nameID1 appends all
non-Italic tokens to the family name, nameID16 appends the tokens that
are neither weight-vocabulary names nor Italic, and nameID17 is the
order-preserving space-join of the tokens that are weight names or
Italic; in particular the derivation on (Noto Sans, Condensed SemiBold)
gives the four values the spec's scenario lists. -/
theorem update_nametable_nonribbi :
    (∀ family_name style_name : String, style_name ∉ ribbiStyles →
      update_nametable_ids family_name style_name =
        { n1 := strip (family_name ++ " " ++
            joinSp ((splitWs style_name).filter (fun t => decide (t ≠ "Italic"))))
          n2 := if "Italic" ∈ splitWs style_name then "Italic" else "Regular"
          n16 := some (strip (family_name ++ " " ++
            joinSp ((splitWs style_name).filter
              (fun t => decide (¬(t ∈ weightNameKeys ∨ t = "Italic"))))))
          n17 := some (joinSp ((splitWs style_name).filter
            (fun t => decide (t ∈ weightNameKeys ∨ t = "Italic")))) }) ∧
    update_nametable_ids "Noto Sans" "Condensed SemiBold" =
      { n1 := "Noto Sans Condensed SemiBold", n2 := "Regular",
        n16 := some "Noto Sans Condensed", n17 := some "SemiBold" } := by
  constructor
  · intro family_name style_name h
    have e1 : (splitWs style_name).filter (fun t => decide (t ∉ (["Italic"] : List String)))
        = (splitWs style_name).filter (fun t => decide (t ≠ "Italic")) := by
      apply List.filter_congr
      intro a _
      rw [decide_eq_decide]
      simp
    have e2 : (splitWs style_name).filter (fun t => decide (t ∉ weightNameKeys ++ ["Italic"]))
        = (splitWs style_name).filter
            (fun t => decide (¬(t ∈ weightNameKeys ∨ t = "Italic"))) := by
      apply List.filter_congr
      intro a _
      rw [decide_eq_decide]
      simp [List.mem_append]
    have e3 : (splitWs style_name).filter (fun t => decide (t ∈ weightNameKeys ++ ["Italic"]))
        = (splitWs style_name).filter
            (fun t => decide (t ∈ weightNameKeys ∨ t = "Italic")) := by
      apply List.filter_congr
      intro a _
      rw [decide_eq_decide]
      simp [List.mem_append]
    simp only [update_nametable_ids, if_neg h, e1, e2, e3]
    by_cases hi : "Italic" ∈ splitWs style_name <;> simp [hi]
  · decide

/-- C6 witness: the theorem applied at the spec's scenario input. -/
theorem update_nametable_nonribbi_witness :
    ("Condensed SemiBold" ∉ ribbiStyles) ∧
    update_nametable_ids "Noto Sans" "Condensed SemiBold" =
      { n1 := strip ("Noto Sans" ++ " " ++
          joinSp ((splitWs "Condensed SemiBold").filter (fun t => decide (t ≠ "Italic"))))
        n2 := if "Italic" ∈ splitWs "Condensed SemiBold" then "Italic" else "Regular"
        n16 := some (strip ("Noto Sans" ++ " " ++
          joinSp ((splitWs "Condensed SemiBold").filter
            (fun t => decide (¬(t ∈ weightNameKeys ∨ t = "Italic"))))))
        n17 := some (joinSp ((splitWs "Condensed SemiBold").filter
          (fun t => decide (t ∈ weightNameKeys ∨ t = "Italic")))) } :=
  ⟨by decide, update_nametable_nonribbi.1 "Noto Sans" "Condensed SemiBold" (by decide)⟩

/-! ### Claim C2: vertical-metrics harmonization -/

/-- C2: after fix_vertical_metrics, every two members of a non-empty
family agree on all eight vertical-metrics fields, and every member has
OS/2 fsSelection bit 7 (USE_TYPO_METRICS) set. -/
theorem fix_vertical_metrics_harmonized (fonts : List MFont) (h : fonts ≠ []) :
    (∀ f ∈ fix_vertical_metrics fonts, ∀ g ∈ fix_vertical_metrics fonts,
      f.usWinAscent = g.usWinAscent ∧ f.usWinDescent = g.usWinDescent ∧
      f.sTypoAscender = g.sTypoAscender ∧ f.sTypoDescender = g.sTypoDescender ∧
      f.sTypoLineGap = g.sTypoLineGap ∧ f.hheaAscent = g.hheaAscent ∧
      f.hheaDescent = g.hheaDescent ∧ f.hheaLineGap = g.hheaLineGap) ∧
    (∀ f ∈ fix_vertical_metrics fonts, f.fsSelection.testBit 7 = true) := by
  have hsome : ∃ s, ((fonts.find? (fun f => decide (f.styleName = "Regular"))).orElse
      (fun _ => fonts.head?)) = some s := by
    cases hf : fonts.find? (fun f => decide (f.styleName = "Regular")) with
    | some s => exact ⟨s, rfl⟩
    | none =>
      cases fonts with
      | nil => exact absurd rfl h
      | cons a l => exact ⟨a, rfl⟩
  obtain ⟨s, hs⟩ := hsome
  unfold fix_vertical_metrics
  rw [hs]
  constructor
  · intro f hf g hg
    simp only [List.mem_map] at hf hg
    obtain ⟨a, _, rfl⟩ := hf
    obtain ⟨b, _, rfl⟩ := hg
    simp [copy_vertical_metrics]
  · intro f hf
    simp only [List.mem_map] at hf
    obtain ⟨a, _, rfl⟩ := hf
    exact testBit7_or_128 a.fsSelection

/-- C2 witness: the theorem applied to a concrete two-font family. -/
theorem fix_vertical_metrics_harmonized_witness :
    ([mfA, mfB] : List MFont) ≠ [] ∧
    ((∀ f ∈ fix_vertical_metrics [mfA, mfB], ∀ g ∈ fix_vertical_metrics [mfA, mfB],
      f.usWinAscent = g.usWinAscent ∧ f.usWinDescent = g.usWinDescent ∧
      f.sTypoAscender = g.sTypoAscender ∧ f.sTypoDescender = g.sTypoDescender ∧
      f.sTypoLineGap = g.sTypoLineGap ∧ f.hheaAscent = g.hheaAscent ∧
      f.hheaDescent = g.hheaDescent ∧ f.hheaLineGap = g.hheaLineGap) ∧
    (∀ f ∈ fix_vertical_metrics [mfA, mfB], f.fsSelection.testBit 7 = true)) :=
  ⟨by decide, fix_vertical_metrics_harmonized [mfA, mfB] (by decide)⟩

/-! ### Pipeline lemmas for gen_stat_tables -/

theorem statTbls_entry_inv {reg : Registry} {fonts : List VFont}
    {tbls : List (List (String × AxisRecordOut))}
    (htbl : statTblsOf reg fonts = .ok tbls) :
    ∀ tbl ∈ tbls, ∀ p ∈ tbl, entryInv p := by
  intro tbl htm p hp
  simp only [statTblsOf] at htbl
  rcases mapME_ok_mem htbl tbl htm with ⟨font, _, hb⟩
  exact buildStatTbl_inv hb p hp

theorem addLinked_tag_inv {tbls : List (List (String × AxisRecordOut))}
    (hinv : ∀ tbl ∈ tbls, ∀ p ∈ tbl, entryInv p) :
    ∀ tbl2 ∈ addLinkedValues tbls, ∀ p ∈ tbl2, p.2.tag = p.1 := by
  intro tbl2 h2 p hp
  simp only [addLinkedValues, List.mem_map] at h2
  rcases h2 with ⟨tbl, htbl, rfl⟩
  rcases List.mem_map.mp hp with ⟨q, hq, rfl⟩
  rw [linkEntry_tag, linkEntry_fst]
  exact (hinv tbl htbl q hq).1

theorem update_elided_map_tag (axes : List AxisRecordOut) (e : List (String × List Int)) :
    (_update_elided_axis_values axes e).map (fun r => r.tag) = axes.map (fun r => r.tag) := by
  unfold _update_elided_axis_values
  rw [List.map_map]
  apply List.map_congr_left
  intro a _
  exact elideRec_tag e a

theorem elideRec_values_mem (e : List (String × List Int)) (rec1 : AxisRecordOut) :
    ∀ v ∈ (elideRec e rec1).values,
      ∃ v1 ∈ rec1.values, v.value = v1.value ∧ v.linkedValue = v1.linkedValue := by
  intro v hv
  unfold elideRec at hv
  cases hd : dictLookup e rec1.tag with
  | none => rw [hd] at hv; exact ⟨v, hv, rfl, rfl⟩
  | some vs =>
    rw [hd] at hv
    dsimp only at hv
    rcases List.mem_map.mp hv with ⟨v1, hv1, rfl⟩
    exact ⟨v1, hv1, elideValue_value vs v1, elideValue_linkedValue vs v1⟩

theorem gen_stat_tables_eq {fonts : List VFont} {axis_order : List String}
    {ev : Option (List (String × List Int))} {reg : Registry}
    {tbls : List (List (String × AxisRecordOut))}
    (htbl : statTblsOf reg fonts = .ok tbls) :
    gen_stat_tables fonts axis_order ev reg =
      (if ((seenAxes (addLinkedValues tbls)).filter (fun a => a ∉ axis_order)).isEmpty then
        mapME (buildFontAxes ev
          (axis_order.filter (fun a => a ∈ seenAxes (addLinkedValues tbls))))
          (addLinkedValues tbls)
      else .error (.axisOrderMissing
        ((seenAxes (addLinkedValues tbls)).filter (fun a => a ∉ axis_order)))) := by
  unfold gen_stat_tables
  rw [htbl]

/-- Every record of a successfully built per-font axis list comes from
a lookup in the font's stat table, with its tag, each value's numeric
value and linkedValue unchanged by the elision override. -/
theorem buildFontAxes_mem_values {ev : Option (List (String × List Int))}
    {order2 : List String} {tbl : List (String × AxisRecordOut)} {l : List AxisRecordOut}
    (h : buildFontAxes ev order2 tbl = .ok l) :
    ∀ rec ∈ l, ∀ v ∈ rec.values,
      ∃ a rec1 v1, dictLookup tbl a = some rec1 ∧ v1 ∈ rec1.values ∧
        rec.tag = rec1.tag ∧ v.value = v1.value ∧ v.linkedValue = v1.linkedValue := by
  unfold buildFontAxes at h
  cases hs : statLookupAxes tbl order2 with
  | error e => rw [hs] at h; cases h
  | ok axes =>
    rw [hs] at h
    simp only [Except.ok.injEq] at h
    subst h
    have haxes : ∀ r ∈ axes, ∃ a, dictLookup tbl a = some r := by
      intro r hr
      rcases mapME_ok_mem hs r hr with ⟨a, _, heq⟩
      cases hd : dictLookup tbl a with
      | none => rw [hd] at heq; cases heq
      | some rec0 =>
        rw [hd] at heq
        simp only [Except.ok.injEq] at heq
        subst heq
        exact ⟨a, hd⟩
    intro rec hrec v hv
    cases ev with
    | none =>
      rcases haxes rec hrec with ⟨a, hd⟩
      exact ⟨a, rec, v, hd, hv, rfl, rfl, rfl⟩
    | some e =>
      simp only [_update_elided_axis_values, List.mem_map] at hrec
      rcases hrec with ⟨rec1, hrec1, rfl⟩
      rcases haxes rec1 hrec1 with ⟨a, hd⟩
      rcases elideRec_values_mem e rec1 v hv with ⟨v1, hv1, hval, hlink⟩
      exact ⟨a, rec1, v1, hd, hv1, elideRec_tag e rec1, hval, hlink⟩

/-! ### Claim C1: axis_order validation and per-font axis lists -/

/-- The per-font stat tables statTblsOf builds for the family
[wfR, wfB] over testReg. -/
def W1tbl : List (String × AxisRecordOut) :=
  [("wght", { tag := "wght", name := "Weight",
              values := [{ value := some 400, name := some "Regular", flags := 2, linkedValue := none },
                         { value := some 700, name := some "Bold", flags := 0, linkedValue := none }] })]

/-- Both family members share the same synthesized table. -/
def W1tbls : List (List (String × AxisRecordOut)) := [W1tbl, W1tbl]

/-- The per-font stat tables for the mixed family [wfOpsz, wfB]: only
the first font has an opsz entry (from its fvar), yet opsz is observed
family-wide. -/
def W2tbls : List (List (String × AxisRecordOut)) :=
  [[("opsz", { tag := "opsz", name := "Optical Size",
               values := [{ value := some 14, name := some "Standard", flags := 2, linkedValue := none },
                          { value := some 144, name := some "Display", flags := 0, linkedValue := none }] }),
    ("wght", { tag := "wght", name := "Weight",
               values := [{ value := some 400, name := some "Regular", flags := 0, linkedValue := none }] })],
   [("wght", { tag := "wght", name := "Weight",
               values := [{ value := some 400, name := some "Regular", flags := 2, linkedValue := none },
                          { value := some 700, name := some "Bold", flags := 0, linkedValue := none }] })]]

/-- C1 counterexample: in the family [wfOpsz, wfB] every axis tag
observed across the synthesized tables (opsz and wght) appears in the
supplied axis_order, yet gen_stat_tables does not hand the second font
an axis list restricted to its own entries: it raises the KeyError of
stat_tbl[opsz], because the final list is restricted to the
family-wide observed axes, not to the font's own. -/
theorem gen_stat_tables_restriction_cx :
    statTblsOf testReg [wfOpsz, wfB] = .ok W2tbls ∧
    (∀ a ∈ seenAxes (addLinkedValues W2tbls), a ∈ ["opsz", "wght"]) ∧
    gen_stat_tables [wfOpsz, wfB] ["opsz", "wght"] none testReg =
      .error (.statKeyError "opsz") := by
  refine ⟨by rfl, by decide, by rfl⟩

/-- C1 (amended): when some axis tag observed across the family's
synthesized tables is missing from axis_order, gen_stat_tables raises
the fatal configuration error (before any table is handed to the
builder); when it returns axis lists, it returns one per font, each
ordered by axis_order's relative order and restricted to the
family-wide observed axis set (every font must have an entry for every
observed axis, else the run ends in a lookup error instead). -/
theorem gen_stat_tables_axis_order (fonts : List VFont) (axis_order : List String)
    (ev : Option (List (String × List Int))) (reg : Registry)
    (tbls : List (List (String × AxisRecordOut)))
    (htbl : statTblsOf reg fonts = .ok tbls) :
    ((∃ a ∈ seenAxes (addLinkedValues tbls), a ∉ axis_order) →
      ∃ missing, gen_stat_tables fonts axis_order ev reg =
        .error (.axisOrderMissing missing) ∧ missing ≠ []) ∧
    (∀ out, gen_stat_tables fonts axis_order ev reg = .ok out →
      out.length = fonts.length ∧
      ∀ l ∈ out, l.map (fun r => r.tag) =
        axis_order.filter (fun a => a ∈ seenAxes (addLinkedValues tbls))) := by
  have hgen := @gen_stat_tables_eq fonts axis_order ev reg tbls htbl
  constructor
  · rintro ⟨a, ha, hna⟩
    have hmem : a ∈ (seenAxes (addLinkedValues tbls)).filter (fun a => a ∉ axis_order) :=
      List.mem_filter.mpr ⟨ha, by simpa using hna⟩
    have hne : (seenAxes (addLinkedValues tbls)).filter (fun a => a ∉ axis_order) ≠ [] :=
      List.ne_nil_of_mem hmem
    have hemp : ¬(((seenAxes (addLinkedValues tbls)).filter
        (fun a => a ∉ axis_order)).isEmpty = true) := by
      rw [List.isEmpty_iff]
      exact hne
    exact ⟨_, by rw [hgen, if_neg hemp], hne⟩
  · intro out hout
    rw [hgen] at hout
    by_cases hemp : (((seenAxes (addLinkedValues tbls)).filter
        (fun a => a ∉ axis_order)).isEmpty = true)
    · rw [if_pos hemp] at hout
      have hlen1 := mapME_ok_length hout
      have hlen2 : tbls.length = fonts.length := by
        simp only [statTblsOf] at htbl
        exact mapME_ok_length htbl
      constructor
      · rw [hlen1, addLinkedValues, List.length_map, hlen2]
      · intro l hl
        rcases mapME_ok_mem hout l hl with ⟨tbl2, htbl2, hba⟩
        have hinv : ∀ p ∈ tbl2, p.2.tag = p.1 :=
          addLinked_tag_inv (statTbls_entry_inv htbl) tbl2 htbl2
        unfold buildFontAxes at hba
        cases hs : statLookupAxes tbl2
            (axis_order.filter (fun a => a ∈ seenAxes (addLinkedValues tbls))) with
        | error e => rw [hs] at hba; cases hba
        | ok axes =>
          rw [hs] at hba
          simp only [Except.ok.injEq] at hba
          subst hba
          have htags : axes.map (fun r => r.tag) =
              axis_order.filter (fun a => a ∈ seenAxes (addLinkedValues tbls)) := by
            apply forall₂_map_eq (mapME_ok_forall₂ hs)
            intro a rec hrec
            cases hd : dictLookup tbl2 a with
            | none => rw [hd] at hrec; cases hrec
            | some rec0 =>
              rw [hd] at hrec
              simp only [Except.ok.injEq] at hrec
              subst hrec
              exact hinv (a, rec0) (dictLookup_mem hd)
          cases ev with
          | none => exact htags
          | some e => rw [update_elided_map_tag]; exact htags
    · rw [if_neg hemp] at hout
      cases hout

/-- C1 witness: the theorem applied to the concrete family [wfR, wfB]
with axis_order [wght]. -/
theorem gen_stat_tables_axis_order_witness :
    statTblsOf testReg [wfR, wfB] = .ok W1tbls ∧
    (((∃ a ∈ seenAxes (addLinkedValues W1tbls), a ∉ (["wght"] : List String)) →
      ∃ missing, gen_stat_tables [wfR, wfB] ["wght"] none testReg =
        .error (.axisOrderMissing missing) ∧ missing ≠ []) ∧
    (∀ out, gen_stat_tables [wfR, wfB] ["wght"] none testReg = .ok out →
      out.length = ([wfR, wfB] : List VFont).length ∧
      ∀ l ∈ out, l.map (fun r => r.tag) =
        (["wght"] : List String).filter (fun a => a ∈ seenAxes (addLinkedValues W1tbls)))) :=
  ⟨by rfl, gen_stat_tables_axis_order [wfR, wfB] ["wght"] none testReg W1tbls (by rfl)⟩

/-! ### Claim C3: linked values -/

/-- The linked-value pass, characterized entry by entry: a wght
AxisValue of 400 is linked to 700 exactly when 700 was observed on wght
somewhere in the family, the same for ital 0 linked to 1, and every
other AxisValue keeps no linkedValue. -/
theorem addLinked_value_spec {tbls : List (List (String × AxisRecordOut))}
    (hinv : ∀ tbl ∈ tbls, ∀ p ∈ tbl, entryInv p) :
    ∀ tbl2 ∈ addLinkedValues tbls, ∀ p ∈ tbl2, ∀ v ∈ p.2.values,
      (p.2.tag = "wght" → v.value = some 400 →
        (v.linkedValue = some 700 ↔ some 700 ∈ seenAxisValues tbls "wght")) ∧
      (p.2.tag = "ital" → v.value = some 0 →
        (v.linkedValue = some 1 ↔ some 1 ∈ seenAxisValues tbls "ital")) ∧
      (¬(p.2.tag = "wght" ∧ v.value = some 400) → ¬(p.2.tag = "ital" ∧ v.value = some 0) →
        v.linkedValue = none) := by
  intro tbl2 h2 p hp v hv
  simp only [addLinkedValues, List.mem_map] at h2
  rcases h2 with ⟨tbl, htbl, rfl⟩
  rcases List.mem_map.mp hp with ⟨q, hq, rfl⟩
  obtain ⟨hqtag, hqlink⟩ := hinv tbl htbl q hq
  by_cases hw : q.1 = "wght"
  · have hl : dictLookup LINKED_VALUES q.1 = some (400, 700) := by
      rw [dictLookup_LINKED_VALUES, if_pos hw]
    have hle : linkEntry tbls q = (q.1, { tag := q.2.tag, name := q.2.name, values := q.2.values.map (linkValue (seenAxisValues tbls q.1) (400, 700)) }) := by
      unfold linkEntry
      rw [hl]
    rw [hle] at hv ⊢
    dsimp only at hv ⊢
    rcases List.mem_map.mp hv with ⟨v1, hv1, rfl⟩
    have hl1 : v1.linkedValue = none := hqlink v1 hv1
    have htg : q.2.tag = "wght" := hqtag.trans hw
    simp only [linkValue]
    by_cases hc : v1.value = some (400 : Int) ∧
        some (700 : Int) ∈ seenAxisValues tbls q.1
    · rw [if_pos hc]
      dsimp only
      refine ⟨?_, ?_, ?_⟩
      · intro _ _
        rw [hw] at hc
        exact ⟨fun _ => hc.2, fun _ => rfl⟩
      · intro h1
        exact absurd (htg.symm.trans h1) (by decide)
      · intro hn1 _
        exact absurd ⟨htg, hc.1⟩ hn1
    · rw [if_neg hc]
      refine ⟨?_, ?_, ?_⟩
      · intro _ hval
        have hseen : some (700 : Int) ∉ seenAxisValues tbls "wght" := by
          rw [← hw]
          intro hm
          exact hc ⟨hval, hm⟩
        rw [hl1]
        exact ⟨fun h700 => Option.noConfusion h700, fun hm => absurd hm hseen⟩
      · intro h1
        exact absurd (htg.symm.trans h1) (by decide)
      · intro _ _
        exact hl1
  · by_cases hi : q.1 = "ital"
    · have hl : dictLookup LINKED_VALUES q.1 = some (0, 1) := by
        rw [dictLookup_LINKED_VALUES, if_neg hw, if_pos hi]
      have hle : linkEntry tbls q = (q.1, { tag := q.2.tag, name := q.2.name, values := q.2.values.map (linkValue (seenAxisValues tbls q.1) (0, 1)) }) := by
        unfold linkEntry
        rw [hl]
      rw [hle] at hv ⊢
      dsimp only at hv ⊢
      rcases List.mem_map.mp hv with ⟨v1, hv1, rfl⟩
      have hl1 : v1.linkedValue = none := hqlink v1 hv1
      have htg : q.2.tag = "ital" := hqtag.trans hi
      simp only [linkValue]
      by_cases hc : v1.value = some (0 : Int) ∧
          some (1 : Int) ∈ seenAxisValues tbls q.1
      · rw [if_pos hc]
        dsimp only
        refine ⟨?_, ?_, ?_⟩
        · intro h1
          exact absurd (htg.symm.trans h1) (by decide)
        · intro _ _
          rw [hi] at hc
          exact ⟨fun _ => hc.2, fun _ => rfl⟩
        · intro _ hn2
          exact absurd ⟨htg, hc.1⟩ hn2
      · rw [if_neg hc]
        refine ⟨?_, ?_, ?_⟩
        · intro h1
          exact absurd (htg.symm.trans h1) (by decide)
        · intro _ hval
          have hseen : some (1 : Int) ∉ seenAxisValues tbls "ital" := by
            rw [← hi]
            intro hm
            exact hc ⟨hval, hm⟩
          rw [hl1]
          exact ⟨fun h1 => Option.noConfusion h1, fun hm => absurd hm hseen⟩
        · intro _ _
          exact hl1
    · have hl : dictLookup LINKED_VALUES q.1 = none := by
        rw [dictLookup_LINKED_VALUES, if_neg hw, if_neg hi]
      have hle : linkEntry tbls q = q := by
        unfold linkEntry
        rw [hl]
      rw [hle] at hv ⊢
      refine ⟨?_, ?_, ?_⟩
      · intro h1
        exact absurd (hqtag.symm.trans h1) hw
      · intro h1
        exact absurd (hqtag.symm.trans h1) hi
      · intro _ _
        exact hqlink v hv

/-- C3: in every axis list gen_stat_tables produces, an AxisValue on a
wght-tagged record with value 400 carries linkedValue 700 exactly when
700 was observed as a wght AxisValue somewhere in the family's
synthesized tables; likewise for ital with the pair 0 and 1; every
other AxisValue carries no linkedValue at all. -/
theorem gen_stat_tables_linked_values (fonts : List VFont) (axis_order : List String)
    (ev : Option (List (String × List Int))) (reg : Registry)
    (tbls : List (List (String × AxisRecordOut))) (out : List (List AxisRecordOut))
    (htbl : statTblsOf reg fonts = .ok tbls)
    (hout : gen_stat_tables fonts axis_order ev reg = .ok out) :
    ∀ l ∈ out, ∀ rec ∈ l, ∀ v ∈ rec.values,
      (rec.tag = "wght" → v.value = some 400 →
        (v.linkedValue = some 700 ↔ some 700 ∈ seenAxisValues tbls "wght")) ∧
      (rec.tag = "ital" → v.value = some 0 →
        (v.linkedValue = some 1 ↔ some 1 ∈ seenAxisValues tbls "ital")) ∧
      (¬(rec.tag = "wght" ∧ v.value = some 400) → ¬(rec.tag = "ital" ∧ v.value = some 0) →
        v.linkedValue = none) := by
  have hgen := @gen_stat_tables_eq fonts axis_order ev reg tbls htbl
  rw [hgen] at hout
  by_cases hemp : (((seenAxes (addLinkedValues tbls)).filter
      (fun a => a ∉ axis_order)).isEmpty = true)
  · rw [if_pos hemp] at hout
    intro l hl rec hrec v hv
    rcases mapME_ok_mem hout l hl with ⟨tbl2, htbl2, hba⟩
    rcases buildFontAxes_mem_values hba rec hrec v hv with
      ⟨a, rec1, v1, hd, hv1, htag, hval, hlink⟩
    have hspec := addLinked_value_spec (statTbls_entry_inv htbl) tbl2 htbl2
      (a, rec1) (dictLookup_mem hd) v1 hv1
    rw [htag, hval, hlink]
    exact hspec
  · rw [if_neg hemp] at hout
    cases hout

/-- The axis lists gen_stat_tables hands the builder for [wfR, wfB]
with axis_order [wght]: 400 is linked to 700 because 700 is present. -/
def W1out : List (List AxisRecordOut) :=
  [[{ tag := "wght", name := "Weight",
      values := [{ value := some 400, name := some "Regular", flags := 2, linkedValue := some 700 },
                 { value := some 700, name := some "Bold", flags := 0, linkedValue := none }] }],
   [{ tag := "wght", name := "Weight",
      values := [{ value := some 400, name := some "Regular", flags := 2, linkedValue := some 700 },
                 { value := some 700, name := some "Bold", flags := 0, linkedValue := none }] }]]

/-- C3 witness: the theorem applied to the concrete family [wfR, wfB]. -/
theorem gen_stat_tables_linked_values_witness :
    statTblsOf testReg [wfR, wfB] = .ok W1tbls ∧
    gen_stat_tables [wfR, wfB] ["wght"] none testReg = .ok W1out ∧
    (∀ l ∈ W1out, ∀ rec ∈ l, ∀ v ∈ rec.values,
      (rec.tag = "wght" → v.value = some 400 →
        (v.linkedValue = some 700 ↔ some 700 ∈ seenAxisValues W1tbls "wght")) ∧
      (rec.tag = "ital" → v.value = some 0 →
        (v.linkedValue = some 1 ↔ some 1 ∈ seenAxisValues W1tbls "ital")) ∧
      (¬(rec.tag = "wght" ∧ v.value = some 400) → ¬(rec.tag = "ital" ∧ v.value = some 0) →
        v.linkedValue = none)) :=
  ⟨by rfl, by rfl,
   gen_stat_tables_linked_values [wfR, wfB] ["wght"] none testReg W1tbls W1out
     (by rfl) (by rfl)⟩

/-! ### Claim C7: static-axis synthesis and the token pairing -/

/-- C7: evaluation of the per-font table construction at the failing
input. The family axis wght is absent from wfFooBold's fvar and its
style name carries the token Bold for it; the claim requires a
non-elidable AxisValue named Bold with the registry fallback value 700,
but the code pairs the axis with the unmatched leading token Foo
(dict(zip(font_style_axes, font_style.split())) misaligns when a token
matches no axis), emitting name Foo with value None. -/
theorem buildStatTbl_misaligned_tokens :
    buildStatTbl testReg (familyAxes testReg [wfFooBold]) wfFooBold =
      .ok [("ital", { tag := "ital", name := "Italic",
                      values := [{ value := some 1, name := some "Italic", flags := 0,
                                   linkedValue := none }] }),
           ("wght", { tag := "wght", name := "Weight",
                      values := [{ value := none, name := some "Foo", flags := 0,
                                   linkedValue := none }] })] := by
  rfl

/-! ### Claim C8: explicit elision overrides -/

/-- C8: whenever gen_stat_tables runs with an explicit elision
override, then on every axis record whose tag the override lists, an
AxisValue's elidable bit ends up set exactly when its value is in the
listed set, across all fonts, regardless of the previously derived
flags. -/
theorem gen_stat_tables_elided_override (fonts : List VFont) (axis_order : List String)
    (ev : List (String × List Int)) (reg : Registry) (out : List (List AxisRecordOut))
    (hout : gen_stat_tables fonts axis_order (some ev) reg = .ok out) :
    ∀ l ∈ out, ∀ rec ∈ l, ∀ vs, dictLookup ev rec.tag = some vs →
      ∀ v ∈ rec.values, ((v.flags &&& ELIDABLE ≠ 0) ↔ ∃ x ∈ vs, v.value = some x) := by
  cases hstat : statTblsOf reg fonts with
  | error e =>
    unfold gen_stat_tables at hout
    rw [hstat] at hout
    cases hout
  | ok tbls =>
    have hgen := @gen_stat_tables_eq fonts axis_order (some ev) reg tbls hstat
    rw [hgen] at hout
    by_cases hemp : (((seenAxes (addLinkedValues tbls)).filter
        (fun a => a ∉ axis_order)).isEmpty = true)
    · rw [if_pos hemp] at hout
      intro l hl rec hrec vs hvs v hv
      rcases mapME_ok_mem hout l hl with ⟨tbl2, _, hba⟩
      unfold buildFontAxes at hba
      cases hs : statLookupAxes tbl2
          (axis_order.filter (fun a => a ∈ seenAxes (addLinkedValues tbls))) with
      | error e => rw [hs] at hba; cases hba
      | ok axes =>
        rw [hs] at hba
        simp only [Except.ok.injEq] at hba
        subst hba
        simp only [_update_elided_axis_values, List.mem_map] at hrec
        rcases hrec with ⟨rec1, hrec1, rfl⟩
        rw [elideRec_tag] at hvs
        have hle : elideRec ev rec1 = { rec1 with values := rec1.values.map (elideValue vs) } := by
          unfold elideRec
          rw [hvs]
        rw [hle] at hv
        dsimp only at hv
        rcases List.mem_map.mp hv with ⟨v1, hv1, rfl⟩
        simp only [elideValue]
        by_cases hc : vs.any (fun x => decide (v1.value = some x)) = true
        · rw [if_pos hc]
          dsimp only
          constructor
          · intro _
            rcases List.any_eq_true.mp hc with ⟨x, hx, hdx⟩
            exact ⟨x, hx, of_decide_eq_true hdx⟩
          · intro _
            exact or_elidable_ne_zero v1.flags
        · rw [if_neg hc]
          dsimp only
          constructor
          · intro hne
            exact absurd (sub_and_elidable_eq_zero v1.flags) hne
          · rintro ⟨x, hx, hvx⟩
            exact absurd (List.any_eq_true.mpr ⟨x, hx, decide_eq_true hvx⟩) hc
    · rw [if_neg hemp] at hout
      cases hout

/-- C8 witness: the theorem applied to [wfR, wfB] with override
wght maps to the listed set containing 400. -/
theorem gen_stat_tables_elided_override_witness :
    gen_stat_tables [wfR, wfB] ["wght"] (some [("wght", [400])]) testReg = .ok W1out ∧
    (∀ l ∈ W1out, ∀ rec ∈ l, ∀ vs, dictLookup [("wght", [(400 : Int)])] rec.tag = some vs →
      ∀ v ∈ rec.values, ((v.flags &&& ELIDABLE ≠ 0) ↔ ∃ x ∈ vs, v.value = some x)) :=
  ⟨by rfl,
   gen_stat_tables_elided_override [wfR, wfB] ["wght"] [("wght", [400])] testReg W1out
     (by rfl)⟩

end GFT
